import Mathlib

/-!
# Verification of the IllinoisProof evidence-integrity core

A shallow embedding of the hash / receipt / Merkle-ledger core of the
IllinoisProof repository (`src/core.py`, `src/prove.py`, `src/detect/*.py`),
together with theorems settling the specification claims about it.

Conventions of the embedding:
* Python byte strings are `List Nat` (each entry a byte value `< 256`).
* 32-bit machine words are `Nat` with explicit reduction `% 2^32`.
* Python dicts are association lists (`List (String × Json)`) carrying
  Python's insertion-order semantics; `json.dumps(..., sort_keys=True)`
  is modelled by rendering entries and sorting them by key.
* The environment is modelled with the optional `blake3` package absent
  (the `ImportError` branch of `src/core.py`, `HAS_BLAKE3 = False`), so
  `dual_hash` takes its documented fallback `b3 = sha`.
* I/O side effects (printing, ledger-file appends) are not modelled;
  functions that mutate their argument dict return the mutated dict
  explicitly, and the wall-clock timestamp is passed in as a parameter.
* Python `while` loops are modelled by structurally recursive functions
  with an explicit fuel argument; the fuel chosen at each call site is an
  upper bound on the number of iterations the source loop can perform, so
  the embedded function computes the same value as the loop.
-/

namespace IllinoisProof

/-! ## SHA-256 (the primary algorithm of `dual_hash`), over `Nat` words -/

/-- `2^32`, the word modulus for SHA-256 arithmetic. -/
def w32 : Nat := 4294967296

/-- Addition modulo `2^32`. -/
def add32 (a b : Nat) : Nat := (a + b) % w32

/-- Right rotation of a 32-bit word. -/
def rotr32 (x n : Nat) : Nat := ((x >>> n) ||| (x <<< (32 - n))) % w32

/-- SHA-256 Σ₀. -/
def bsig0 (x : Nat) : Nat := (rotr32 x 2) ^^^ (rotr32 x 13) ^^^ (rotr32 x 22)

/-- SHA-256 Σ₁. -/
def bsig1 (x : Nat) : Nat := (rotr32 x 6) ^^^ (rotr32 x 11) ^^^ (rotr32 x 25)

/-- SHA-256 σ₀. -/
def ssig0 (x : Nat) : Nat := (rotr32 x 7) ^^^ (rotr32 x 18) ^^^ (x >>> 3)

/-- SHA-256 σ₁. -/
def ssig1 (x : Nat) : Nat := (rotr32 x 17) ^^^ (rotr32 x 19) ^^^ (x >>> 10)

/-- SHA-256 Ch. -/
def ch32 (x y z : Nat) : Nat := (x &&& y) ^^^ ((x ^^^ 0xffffffff) &&& z)

/-- SHA-256 Maj. -/
def maj32 (x y z : Nat) : Nat := (x &&& y) ^^^ (x &&& z) ^^^ (y &&& z)

/-- The 64 SHA-256 round constants (FIPS 180-4, here as decimals:
`0x428a2f98 = 1116352408` etc.). -/
def shaK : List Nat :=
  [1116352408, 1899447441, 3049323471, 3921009573, 961987163, 1508970993,
   2453635748, 2870763221, 3624381080, 310598401, 607225278, 1426881987,
   1925078388, 2162078206, 2614888103, 3248222580, 3835390401, 4022224774,
   264347078, 604807628, 770255983, 1249150122, 1555081692, 1996064986,
   2554220882, 2821834349, 2952996808, 3210313671, 3336571891, 3584528711,
   113926993, 338241895, 666307205, 773529912, 1294757372, 1396182291,
   1695183700, 1986661051, 2177026350, 2456956037, 2730485921, 2820302411,
   3259730800, 3345764771, 3516065817, 3600352804, 4094571909, 275423344,
   430227734, 506948616, 659060556, 883997877, 958139571, 1322822218,
   1537002063, 1747873779, 1955562222, 2024104815, 2227730452, 2361852424,
   2428436474, 2756734187, 3204031479, 3329325298]

/-- The SHA-256 initial hash state (FIPS 180-4, `0x6a09e667 = 1779033703`
etc.). -/
def shaH0 : List Nat :=
  [1779033703, 3144134277, 1013904242, 2773480762,
   1359893119, 2600822924, 528734635, 1541459225]

/-- Big-endian byte rendering of `x` on `n` bytes. -/
def beBytes : Nat → Nat → List Nat
  | 0, _ => []
  | n + 1, x => beBytes n (x >>> 8) ++ [x % 256]

/-- SHA-256 message padding: append `0x80`, zeros to 56 mod 64, and the
bit length on 8 big-endian bytes. -/
def padMessage (msg : List Nat) : List Nat :=
  let padLen := (119 - msg.length % 64) % 64
  msg ++ 0x80 :: (List.replicate padLen 0 ++ beBytes 8 (msg.length * 8))

/-- Group bytes into big-endian 32-bit words. -/
def toWords : List Nat → List Nat
  | b0 :: b1 :: b2 :: b3 :: rest =>
      ((((b0 <<< 8 ||| b1) <<< 8) ||| b2) <<< 8 ||| b3) :: toWords rest
  | _ => []

/-- Cut a word list into blocks of 16 words; the fuel is an upper bound on
the number of blocks (the word-list length suffices). -/
def blocksGo : Nat → List Nat → List (List Nat)
  | 0, _ => []
  | _, [] => []
  | fuel + 1, ws => ws.take 16 :: blocksGo fuel (ws.drop 16)

/-- Message-schedule extension, building the schedule in reverse so the
words `W[t-2], W[t-7], W[t-15], W[t-16]` are positions `1, 6, 14, 15`. -/
def schedGo : Nat → List Nat → List Nat
  | 0, ws => ws
  | t + 1, ws =>
      let wt := (ssig1 (ws.getD 1 0) + ws.getD 6 0 + ssig0 (ws.getD 14 0)
                 + ws.getD 15 0) % w32
      schedGo t (wt :: ws)

/-- The full 64-word message schedule of one block. -/
def schedule (block : List Nat) : List Nat := (schedGo 48 block.reverse).reverse

/-- One SHA-256 round on the 8-word working state. -/
def roundStep (st : List Nat) (kw : Nat × Nat) : List Nat :=
  match st with
  | [a, b, c, d, e, f, g, h] =>
      let t1 := (h + bsig1 e + ch32 e f g + kw.1 + kw.2) % w32
      let t2 := (bsig0 a + maj32 a b c) % w32
      [add32 t1 t2, a, b, c, (d + t1) % w32, e, f, g]
  | other => other

/-- SHA-256 compression of one 16-word block into the chaining state. -/
def compress (h : List Nat) (block : List Nat) : List Nat :=
  let st := (shaK.zip (schedule block)).foldl roundStep h
  (h.zip st).map (fun p => add32 p.1 p.2)

/-- SHA-256 of a byte string, as the final 8-word state. -/
def sha256Words (msg : List Nat) : List Nat :=
  let padded := padMessage msg
  (blocksGo padded.length (toWords padded)).foldl compress shaH0

/-- Lower-case hex digit. -/
def hexChar (n : Nat) : Char :=
  if n < 10 then Char.ofNat (48 + n) else Char.ofNat (87 + n)

/-- Lower-case 8-digit hex rendering of a 32-bit word. -/
def hex8 (x : Nat) : String :=
  String.mk ((List.range 8).map (fun i => hexChar ((x >>> (28 - 4 * i)) % 16)))

/-- `hashlib.sha256(msg).hexdigest()`. -/
def sha256hex (msg : List Nat) : String :=
  String.join ((sha256Words msg).map hex8)

/-- UTF-8 encoding of one character. -/
def utf8Char (c : Char) : List Nat :=
  let n := c.toNat
  if n < 0x80 then [n]
  else if n < 0x800 then [0xc0 ||| (n >>> 6), 0x80 ||| (n &&& 0x3f)]
  else if n < 0x10000 then
    [0xe0 ||| (n >>> 12), 0x80 ||| ((n >>> 6) &&& 0x3f), 0x80 ||| (n &&& 0x3f)]
  else
    [0xf0 ||| (n >>> 18), 0x80 ||| ((n >>> 12) &&& 0x3f),
     0x80 ||| ((n >>> 6) &&& 0x3f), 0x80 ||| (n &&& 0x3f)]

/-- `str.encode('utf-8')`. -/
def utf8 (s : String) : List Nat := s.data.flatMap utf8Char

/-! ## `dual_hash` (src/core.py lines 42-63) -/

/-- Tenant id constant from src/core.py. -/
def TENANT_ID : String := "illinoisproof"

/-- `dual_hash` from src/core.py.  The environment is modelled with the
optional `blake3` package absent (the `ImportError` branch of the source
sets `HAS_BLAKE3 = False`), so the fallback branch `b3 = sha` is taken
and the result duplicates the SHA-256 digest. -/
def dual_hash (data : List Nat) : String :=
  let sha := sha256hex data
  let b3 := sha
  sha ++ ":" ++ b3

/-- `dual_hash` applied to a Python `str` (encoded to UTF-8 first, as in
the source). -/
def dual_hashStr (s : String) : String := dual_hash (utf8 s)

/-! ## JSON values and Python dict semantics -/

/-- JSON values as they occur in the receipts this development handles.
Python floats appear only with integral values in the claims' inputs, so
`jfloat z` models the Python float of integral value `z` (serialized by
`json.dumps` as `"<z>.0"`). -/
inductive Json where
  | jstr : String → Json
  | jint : Int → Json
  | jfloat : Int → Json
  | jobj : List (String × Json) → Json

/-- Lower-case 4-digit hex rendering, for `\uXXXX` escapes. -/
def hex4 (x : Nat) : String :=
  String.mk ((List.range 4).map (fun i => hexChar ((x >>> (12 - 4 * i)) % 16)))

/-- `json.dumps` escaping of one character (`ensure_ascii=True`): the
two-character escapes for quote, backslash and the classic control
characters, printable ASCII verbatim, `\uXXXX` (with surrogate pairs
beyond the BMP) for everything else. -/
def pyEscapeChar (c : Char) : String :=
  let n := c.toNat
  if n = 34 then "\\\""
  else if n = 92 then "\\\\"
  else if n = 8 then "\\b"
  else if n = 9 then "\\t"
  else if n = 10 then "\\n"
  else if n = 12 then "\\f"
  else if n = 13 then "\\r"
  else if 32 ≤ n && n ≤ 126 then String.singleton c
  else if n < 0x10000 then "\\u" ++ hex4 n
  else
    "\\u" ++ hex4 (0xd800 + ((n - 0x10000) >>> 10)) ++
    "\\u" ++ hex4 (0xdc00 + ((n - 0x10000) &&& 0x3ff))

/-- A JSON string literal as `json.dumps` renders it. -/
def pyQuote (s : String) : String :=
  "\"" ++ String.join (s.data.map pyEscapeChar) ++ "\""

/-- Insert a rendered entry into a key-sorted entry list (Python string
order is code-point lexicographic, as is Lean's `String` order). -/
def insertByKey (p : String × String) :
    List (String × String) → List (String × String)
  | [] => [p]
  | q :: rest => if p.1 < q.1 then p :: q :: rest else q :: insertByKey p rest

/-- Sort rendered entries by key (`sort_keys=True`). -/
def sortByKey : List (String × String) → List (String × String)
  | [] => []
  | p :: rest => insertByKey p (sortByKey rest)

mutual
/-- `json.dumps(v, sort_keys=True)` with the default separators
`", "` and `": "`.  Objects are rendered by serializing each entry and
sorting the rendered entries by key — equivalent to sorting the keys
first, since an entry's rendering does not depend on its position. -/
def dumpJson : Json → String
  | .jstr s => pyQuote s
  | .jint n => toString n
  | .jfloat z => toString z ++ ".0"
  | .jobj kvs =>
      "\x7b" ++
      String.intercalate ", "
        ((sortByKey (renderEntries kvs)).map (fun p => pyQuote p.1 ++ ": " ++ p.2))
      ++ "\x7d"

/-- Render each object entry (key, serialized value), in source order. -/
def renderEntries : List (String × Json) → List (String × String)
  | [] => []
  | (k, v) :: rest => (k, dumpJson v) :: renderEntries rest
end

/-- A Python dict: an insertion-ordered association list with unique keys
maintained by the operations below. -/
abbrev PyDict := List (String × Json)

/-- `d[k]` lookup / `d.get(k)`. -/
def pyGet : PyDict → String → Option Json
  | [], _ => none
  | (k', v) :: rest, k => if k' = k then some v else pyGet rest k

/-- `k in d`. -/
def pyContains (d : PyDict) (k : String) : Bool := (pyGet d k).isSome

/-- `d[k] = v`: replace in place if the key exists (keeping its
position), else append the new key. -/
def pySet : PyDict → String → Json → PyDict
  | [], k, v => [(k, v)]
  | (k', v') :: rest, k, v =>
      if k' = k then (k', v) :: rest else (k', v') :: pySet rest k v

/-- The dict-literal spread `\x7b**a, **b\x7d`: entries of `b`
update/extend `a` in order. -/
def pyMerge (a b : PyDict) : PyDict :=
  b.foldl (fun acc kv => pySet acc kv.1 kv.2) a

/-! ## `emit_receipt` (src/core.py lines 66-103) -/

/-- `emit_receipt` from src/core.py.  `now` stands for the value of
`datetime.now(timezone.utc).isoformat().replace("+00:00", "Z")`; the
print to stdout and the optional append to receipts.jsonl are I/O side
channels not modelled.  The source mutates its `data` argument (the
tenant_id injection), so the embedding returns (receipt, mutated data). -/
def emit_receipt (receipt_type : String) (data : PyDict) (now : String) :
    PyDict × PyDict :=
  let data := if pyContains data "tenant_id" then data
              else pySet data "tenant_id" (.jstr TENANT_ID)
  let receipt := pyMerge
    [("receipt_type", .jstr receipt_type),
     ("ts", .jstr now),
     ("tenant_id", (pyGet data "tenant_id").getD (.jstr TENANT_ID)),
     ("payload_hash", .jstr (dual_hashStr (dumpJson (.jobj data))))]
    data
  (receipt, data)

/-! ## Merkle tree (src/core.py lines 106-154, src/prove.py lines 119-162) -/

/-- Leaf hash of one item: `dual_hash(json.dumps(i, sort_keys=True))`. -/
def leafHash (item : Json) : String := dual_hashStr (dumpJson item)

/-- The odd-level padding of `merkle`: duplicate the last hash when the
level has odd length. -/
def padOdd (hs : List String) : List String :=
  if hs.length % 2 = 1 then hs ++ [hs.getLastD ""] else hs

/-- One pairing pass of `merkle`'s loop body: hash adjacent pairs.  In
`merkle` this is only applied to even-length lists (after `padOdd`), so
the one-element fallback is unreachable there. -/
def hashPairs : List String → List String
  | a :: b :: rest => dual_hashStr (a ++ b) :: hashPairs rest
  | l => l

/-- The `while len(hashes) > 1` loop of `merkle`.  Each iteration at
least halves a length `≥ 2`, so the initial length is enough fuel. -/
def merkleLoopGo : Nat → List String → List String
  | 0, hs => hs
  | fuel + 1, hs =>
      if 1 < hs.length then merkleLoopGo fuel (hashPairs (padOdd hs)) else hs

/-- `merkle` from src/core.py lines 106-131. -/
def merkle (items : List Json) : String :=
  if items.isEmpty then dual_hash (utf8 "empty")
  else
    let hashes := items.map leafHash
    (merkleLoopGo hashes.length hashes).headD ""

/-- The loop body of `verify_merkle_proof`: combine the current hash
with one `(sibling_hash, position)` proof entry, prepending for
`"left"` siblings and appending otherwise. -/
def verifyStep (cur : String) (sp : String × String) : String :=
  if sp.2 = "left" then dual_hashStr (sp.1 ++ cur)
  else dual_hashStr (cur ++ sp.1)

/-- `verify_merkle_proof` from src/core.py lines 134-154: fold the proof
from the leaf hash, then compare with the expected root. -/
def verify_merkle_proof (item : Json) (proof : List (String × String))
    (root : String) : Bool :=
  (proof.foldl verifyStep (leafHash item)) = root

/-- The `while len(hashes) & (len(hashes) - 1)` padding loop of
`generate_merkle_proof`: duplicate the last hash until the length is a
power of two.  From length `n` the next power of two is below `2n`, so
`n` appends are enough fuel. -/
def padPow2Go : Nat → List String → List String
  | 0, hs => hs
  | fuel + 1, hs =>
      if hs.length &&& (hs.length - 1) ≠ 0 then
        padPow2Go fuel (hs ++ [hs.getLastD ""])
      else hs

/-- One level of `generate_merkle_proof`'s descent: the
`for i in range(0, len(hashes), 2)` body.  `i` is the running even index
of the pair being visited, `index` the target's current index.  Returns
the proof entries collected at this level and the next level's hashes.
The singleton case is the `i + 1 < len` fallback `right = hashes[i]`. -/
def proofLevelGo : List String → Nat → Nat →
    List (String × String) × List String
  | [], _, _ => ([], [])
  | [a], i, index =>
      let pr := if i / 2 = index / 2 then
                  if index % 2 = 0 then [(a, "right")] else [(a, "left")]
                else []
      (pr, [dual_hashStr (a ++ a)])
  | a :: b :: rest, i, index =>
      let step := proofLevelGo rest (i + 2) index
      let pr := if i / 2 = index / 2 then
                  if index % 2 = 0 then [(b, "right")] else [(a, "left")]
                else []
      (pr ++ step.1, dual_hashStr (a ++ b) :: step.2)

/-- The `while len(hashes) > 1` descent of `generate_merkle_proof`; one
level per fuel unit, halving the level and the index each time. -/
def proofLoopGo : Nat → List String → Nat → List (String × String)
  | 0, _, _ => []
  | fuel + 1, hs, index =>
      if 1 < hs.length then
        let level := proofLevelGo hs 0 index
        level.1 ++ proofLoopGo fuel level.2 (index / 2)
      else []

/-- `generate_merkle_proof` from src/prove.py lines 119-162. -/
def generate_merkle_proof (receipts : List Json) (target_index : Nat) :
    List (String × String) :=
  if receipts.isEmpty || receipts.length ≤ target_index then []
  else
    let hashes := receipts.map leafHash
    let hashes := padPow2Go hashes.length hashes
    proofLoopGo hashes.length hashes target_index

/-! ## `validate_receipt_chain` (src/prove.py lines 73-116) -/

/-- The required fields checked by `validate_receipt_chain`. -/
def requiredFields : List String :=
  ["receipt_type", "ts", "tenant_id", "payload_hash"]

/-- One structural-validation error entry, built by the source as the
dict with keys `index`, `error`, `receipt_type`. -/
structure ChainError where
  index : Nat
  error : String
  receipt_type : Json

/-- One receipt's pass of the validation loop: one error entry per
missing required field, in field order.  The source then also computes
`expected_hash` over the payload with `receipt_type`/`ts`/`payload_hash`
filtered out and never uses it (dead code, kept as `_expected_hash`). -/
def receiptErrors (i : Nat) (receipt : PyDict) : List ChainError :=
  let errs := (requiredFields.filter (fun f => !(pyContains receipt f))).map
    (fun f =>
      ⟨i, "missing_field:" ++ f,
       (pyGet receipt "receipt_type").getD (.jstr "unknown")⟩)
  let payload :=
    receipt.filter (fun kv => !(["receipt_type", "ts", "payload_hash"].contains kv.1))
  let _expected_hash := dual_hashStr (dumpJson (.jobj payload))
  errs

/-- The validation result dict.  The early return for empty input has no
`merkle_root` key at all, modelled as `merkle_root = none`. -/
structure ValidationResult where
  valid : Bool
  receipt_count : Nat
  errors : List ChainError
  merkle_root : Option String

/-- `validate_receipt_chain` from src/prove.py lines 73-116. -/
def validate_receipt_chain (receipts : List PyDict) : ValidationResult :=
  if receipts.isEmpty then ⟨true, 0, [], none⟩
  else
    let errors := (receipts.enum.map (fun p => receiptErrors p.1 p.2)).flatten
    ⟨errors.isEmpty, receipts.length, errors,
     some (merkle (receipts.map Json.jobj))⟩

/-! ## StopRule policy (src/core.py lines 32-39 and 245-307) -/

/-- The `StopRule` exception of src/core.py (its `message`, `metric` and
`action` attributes). -/
structure StopRule where
  message : String
  metric : String
  action : String
deriving DecidableEq

/-- `stoprule_halt` from src/core.py lines 245-263.  The result pairs
the receipts emitted during the call (in emission order) with the
control-flow outcome; `Except.error` models the raised `StopRule`.  As
in the source, the receipt is produced by `emit_receipt` before the
raise.  `baseline`/`delta` are the Python floats of integral value. -/
def stoprule_halt (metric message : String) (baseline delta : Int)
    (now : String) : List PyDict × Except StopRule Unit :=
  let emitted := emit_receipt "anomaly"
    [("metric", .jstr metric), ("baseline", .jfloat baseline),
     ("delta", .jfloat delta), ("classification", .jstr "violation"),
     ("action", .jstr "halt"), ("tenant_id", .jstr TENANT_ID)] now
  ([emitted.1], .error ⟨message, metric, "halt"⟩)

/-- `stoprule_escalate` from src/core.py lines 266-284; same shape as
`stoprule_halt` with classification `"degradation"`, action
`"escalate"`. -/
def stoprule_escalate (metric message : String) (baseline delta : Int)
    (now : String) : List PyDict × Except StopRule Unit :=
  let emitted := emit_receipt "anomaly"
    [("metric", .jstr metric), ("baseline", .jfloat baseline),
     ("delta", .jfloat delta), ("classification", .jstr "degradation"),
     ("action", .jstr "escalate"), ("tenant_id", .jstr TENANT_ID)] now
  ([emitted.1], .error ⟨message, metric, "escalate"⟩)

/-- `stoprule_alert` from src/core.py lines 287-307: emits the anomaly
receipt with classification `"drift"`, action `"alert"`, raises nothing
and returns the receipt. -/
def stoprule_alert (metric message : String) (baseline delta : Int)
    (now : String) : List PyDict × Except StopRule PyDict :=
  let emitted := emit_receipt "anomaly"
    [("metric", .jstr metric), ("baseline", .jfloat baseline),
     ("delta", .jfloat delta), ("classification", .jstr "drift"),
     ("action", .jstr "alert"), ("tenant_id", .jstr TENANT_ID)] now
  ([emitted.1], .ok emitted.1)

/-! ## Entropy z-score (src/detect/entropy.py lines 78-92) -/

/-- The baseline statistics dict (`mean`, `std`, `sample_size`); Python
floats are modelled as exact rationals. -/
structure EntropyBaseline where
  mean : ℚ
  std : ℚ
  sample_size : Nat

/-- `compute_z_score` from src/detect/entropy.py lines 78-92. -/
def compute_z_score ( ratio : ℚ) (baseline : EntropyBaseline) : ℚ :=
  if baseline.std = 0 then 0
  else ( ratio - baseline.mean) / baseline.std

/-! ## Benford expected frequencies (src/detect/benford.py lines 20-39) -/

/-- The `digit_position == 1` branch of `benford_expected`: the expected
frequency of leading digit `d`, `math.log10(1 + 1/d)`, with the float
computation modelled as the exact real logarithm base 10. -/
noncomputable def benford_expected1 (d : Nat) : ℝ :=
  Real.logb 10 (1 + 1 / (d : ℝ))

/-- Lower-case hex digit predicate, for describing the surface form of a
dual hash. -/
def isHexChar (c : Char) : Bool := "0123456789abcdef".data.contains c

/-- The unmarked surface form of a true dual-algorithm hash: exactly 64
hex digits, a colon, and 64 hex digits — with no degradation marker. -/
def isUnmarkedDualForm (s : String) : Bool :=
  s.length == 129 &&
  (s.data.take 64).all isHexChar &&
  s.data.getD 64 ' ' == ':' &&
  (s.data.drop 65).all isHexChar

end IllinoisProof

namespace IllinoisProof

/-! ## Theorems for the claims -/

/-- C10: for every single item `x`, `merkle [x]` is exactly the dual
hash of the sorted-key JSON serialization of `x` — the Merkle root of a
one-element list is its leaf hash, with no padding or pairing step. -/
theorem merkle_single_item (x : Json) : merkle [x] = dual_hashStr (dumpJson x) := rfl

set_option maxRecDepth 200000 in
/-- C3: when BLAKE3 is unavailable, `dual_hash` silently duplicates the
SHA-256 digest: for every input the fallback output is
`sha ++ ":" ++ sha`, and on the concrete failing input `b""` the result
is the plain unmarked `"<hex>:<hex>"` dual-hash form — no visible flag
distinguishes it from a true dual-algorithm hash, contradicting the
spec's requirement. -/
theorem dual_hash_fallback_unflagged :
    (∀ data : List Nat, dual_hash data = sha256hex data ++ ":" ++ sha256hex data) ∧
    dual_hashStr "" =
      "e3b0c44298fc1c149afbf4c8996fb92427ae41e4649b934ca495991b7852b855:e3b0c44298fc1c149afbf4c8996fb92427ae41e4649b934ca495991b7852b855" ∧
    isUnmarkedDualForm (dual_hashStr "") = true :=
  ⟨fun _ => rfl, by decide, by decide⟩

/-- C8: `compute_z_score` returns `0` whenever the baseline's `std` is
zero (the division is never reached), and `(x - mean) / std` otherwise. -/
theorem compute_z_score_spec (x : ℚ) (b : EntropyBaseline) :
    (b.std = 0 → compute_z_score x b = 0) ∧
    (b.std ≠ 0 → compute_z_score x b = (x - b.mean) / b.std) := by
  constructor <;> intro h <;> simp [compute_z_score, h]

/-- Witness for C8 at the spec's concrete edge case: mean `1/2`,
`std = 0` yields z-score `0` with no division by zero. -/
theorem compute_z_score_spec_witness :
    compute_z_score (7 / 10) ⟨1 / 2, 0, 100⟩ = 0 :=
  (compute_z_score_spec (7 / 10) ⟨1 / 2, 0, 100⟩).1 rfl

/-- C6: each stoprule emits exactly one `"anomaly"` receipt, carrying
its documented classification and action, before its control-flow
effect: `stoprule_halt` and `stoprule_escalate` then raise `StopRule`
(with actions `"halt"` / `"escalate"`), while `stoprule_alert` returns
the receipt normally without raising — the receipt is in the emitted
list in every case. -/
theorem stoprule_emission_spec (metric message : String)
    (baseline delta : Int) (now : String) :
    ((stoprule_halt metric message baseline delta now).1.length = 1 ∧
     pyGet ((stoprule_halt metric message baseline delta now).1.headD [])
       "receipt_type" = some (.jstr "anomaly") ∧
     pyGet ((stoprule_halt metric message baseline delta now).1.headD [])
       "classification" = some (.jstr "violation") ∧
     pyGet ((stoprule_halt metric message baseline delta now).1.headD [])
       "action" = some (.jstr "halt") ∧
     (stoprule_halt metric message baseline delta now).2 =
       .error ⟨message, metric, "halt"⟩) ∧
    ((stoprule_escalate metric message baseline delta now).1.length = 1 ∧
     pyGet ((stoprule_escalate metric message baseline delta now).1.headD [])
       "receipt_type" = some (.jstr "anomaly") ∧
     pyGet ((stoprule_escalate metric message baseline delta now).1.headD [])
       "classification" = some (.jstr "degradation") ∧
     pyGet ((stoprule_escalate metric message baseline delta now).1.headD [])
       "action" = some (.jstr "escalate") ∧
     (stoprule_escalate metric message baseline delta now).2 =
       .error ⟨message, metric, "escalate"⟩) ∧
    ((stoprule_alert metric message baseline delta now).1.length = 1 ∧
     pyGet ((stoprule_alert metric message baseline delta now).1.headD [])
       "receipt_type" = some (.jstr "anomaly") ∧
     pyGet ((stoprule_alert metric message baseline delta now).1.headD [])
       "classification" = some (.jstr "drift") ∧
     pyGet ((stoprule_alert metric message baseline delta now).1.headD [])
       "action" = some (.jstr "alert") ∧
     (stoprule_alert metric message baseline delta now).2 =
       .ok ((stoprule_alert metric message baseline delta now).1.headD [])) :=
  ⟨⟨rfl, rfl, rfl, rfl, rfl⟩, ⟨rfl, rfl, rfl, rfl, rfl⟩,
   ⟨rfl, rfl, rfl, rfl, rfl⟩⟩

/-- C2 counterexample: a payload supplying the reserved key `"ts"` wins
over the reserved timestamp — the emitted receipt holds the payload's
`"CUSTOM"`, not the reserved value, because `**data` is spread last in
the receipt dict literal. -/
theorem emit_receipt_reserved_overwritten_counterexample :
    pyGet (emit_receipt "test" [("ts", Json.jstr "CUSTOM")]
      "2020-01-01T00:00:00Z").1 "ts" = some (Json.jstr "CUSTOM") ∧
    pyGet (emit_receipt "test" [("ts", Json.jstr "CUSTOM")]
      "2020-01-01T00:00:00Z").1 "ts" ≠ some (Json.jstr "2020-01-01T00:00:00Z") := by
  refine ⟨rfl, ?_⟩
  rw [show pyGet (emit_receipt "test" [("ts", Json.jstr "CUSTOM")]
      "2020-01-01T00:00:00Z").1 "ts" = some (Json.jstr "CUSTOM") from rfl]
  intro h
  injection h with h1
  injection h1 with h2
  exact absurd h2 (by decide)

/-! ### Association-list lemmas for the Python dict operations -/

theorem pyGet_pySet_self (d : PyDict) (k : String) (v : Json) :
    pyGet (pySet d k v) k = some v := by
  induction d with
  | nil => simp [pySet, pyGet]
  | cons kv rest ih =>
      obtain ⟨k0, v0⟩ := kv
      by_cases h : k0 = k
      · simp [pySet, pyGet, h]
      · simp [pySet, pyGet, h, ih]

theorem pyGet_pySet_ne (d : PyDict) (k' k : String) (v : Json) (h : k' ≠ k) :
    pyGet (pySet d k' v) k = pyGet d k := by
  induction d with
  | nil => simp [pySet, pyGet, h]
  | cons kv rest ih =>
      obtain ⟨k0, v0⟩ := kv
      by_cases h0 : k0 = k'
      · subst h0; simp [pySet, pyGet, h]
      · by_cases hk : k0 = k <;> simp [pySet, pyGet, h0, hk, ih, Ne.symm h]

theorem pyGet_eq_none_iff (d : PyDict) (k : String) :
    pyGet d k = none ↔ k ∉ d.map Prod.fst := by
  induction d with
  | nil => simp [pyGet]
  | cons kv rest ih =>
      obtain ⟨k0, v0⟩ := kv
      by_cases h : k0 = k
      · simp [pyGet, h]
      · have hks : ¬ (k = k0) := fun he => h he.symm
        simp only [pyGet, h, if_false, List.map_cons, List.mem_cons, not_or, ih]
        simp [hks]

theorem pySet_of_get_none (d : PyDict) (k : String) (v : Json)
    (h : pyGet d k = none) : pySet d k v = d ++ [(k, v)] := by
  induction d with
  | nil => rfl
  | cons kv rest ih =>
      obtain ⟨k0, v0⟩ := kv
      by_cases h0 : k0 = k
      · simp [pyGet, h0] at h
      · simp only [pyGet, h0, if_false] at h
        simp [pySet, h0, ih h]

theorem pyGet_append_of_none (d e : PyDict) (k : String)
    (h : pyGet d k = none) : pyGet (d ++ e) k = pyGet e k := by
  induction d with
  | nil => rfl
  | cons kv rest ih =>
      by_cases h0 : kv.1 = k
      · simp [pyGet, h0] at h
      · simp only [pyGet, h0, if_false] at h
        simp [pyGet, h0, ih h]

theorem pyGet_append_of_some (d e : PyDict) (k : String) (v : Json)
    (h : pyGet d k = some v) : pyGet (d ++ e) k = some v := by
  induction d with
  | nil => simp [pyGet] at h
  | cons kv rest ih =>
      by_cases h0 : kv.1 = k
      · simp only [pyGet, h0, if_true] at h ⊢
        exact h
      · simp only [pyGet, h0, if_false] at h ⊢
        exact ih h

theorem pyGet_pyMerge_of_not_mem (b : PyDict) (l : List (String × Json))
    (k : String) (h : ∀ kv ∈ l, kv.1 ≠ k) :
    pyGet (pyMerge b l) k = pyGet b k := by
  induction l generalizing b with
  | nil => rfl
  | cons kv rest ih =>
      rw [show pyMerge b (kv :: rest) = pyMerge (pySet b kv.1 kv.2) rest from rfl]
      rw [ih _ (fun x hx => h x (List.mem_cons_of_mem _ hx))]
      exact pyGet_pySet_ne _ _ _ _ (h kv (List.mem_cons_self _ _))

theorem pyGet_pyMerge_of_some (b : PyDict) (l : List (String × Json))
    (k : String) (v : Json) (hnd : (l.map Prod.fst).Nodup)
    (hv : pyGet l k = some v) :
    pyGet (pyMerge b l) k = some v := by
  induction l generalizing b with
  | nil => simp [pyGet] at hv
  | cons kv rest ih =>
      obtain ⟨k1, v1⟩ := kv
      simp only [List.map_cons, List.nodup_cons] at hnd
      rw [show pyMerge b ((k1, v1) :: rest) = pyMerge (pySet b k1 v1) rest from rfl]
      by_cases h1 : k1 = k
      · have hv1 : v1 = v := by simpa [pyGet, h1] using hv
        have hnm : ∀ x ∈ rest, x.1 ≠ k := by
          intro x hx he
          have he1 : x.1 = k1 := by rw [he, ← h1]
          exact hnd.1 (he1 ▸ List.mem_map_of_mem Prod.fst hx)
        rw [pyGet_pyMerge_of_not_mem _ _ _ hnm, ← h1, ← hv1]
        exact pyGet_pySet_self _ _ _
      · have hv' : pyGet rest k = some v := by simpa [pyGet, h1] using hv
        exact ih (pySet b k1 v1) hnd.2 hv'

/-- C2 amended: in `emit_receipt`, `**data` is spread last, so whenever
the payload dict (with distinct keys, as every Python dict has) supplies
a value at any key — the four reserved keys included — the emitted
receipt holds the payload's value at that key, not the reserved value;
for `tenant_id` the two coincide because the reserved value is itself
read from the payload. -/
theorem emit_receipt_payload_wins (rt now : String) (data : PyDict)
    (hnd : (data.map Prod.fst).Nodup) (k : String) (v : Json)
    (hv : pyGet data k = some v) :
    pyGet (emit_receipt rt data now).1 k = some v := by
  unfold emit_receipt
  cases hcs : pyContains data "tenant_id" with
  | true =>
      simp only [hcs, if_true]
      exact pyGet_pyMerge_of_some _ _ _ _ hnd hv
  | false =>
      simp only [hcs, Bool.false_eq_true, if_false]
      have hkne : "tenant_id" ≠ k := by
        intro he
        subst he
        simp [pyContains, hv] at hcs
      have hnone : pyGet data "tenant_id" = none := by
        cases hg : pyGet data "tenant_id" with
        | none => rfl
        | some w => simp [pyContains, hg] at hcs
      have happ := pySet_of_get_none data "tenant_id" (.jstr TENANT_ID) hnone
      have hv' : pyGet (pySet data "tenant_id" (.jstr TENANT_ID)) k = some v :=
        (pyGet_pySet_ne _ _ _ _ hkne).trans hv
      have hnd' : ((pySet data "tenant_id" (.jstr TENANT_ID)).map Prod.fst).Nodup := by
        rw [happ]
        simp only [List.map_append, List.map_cons, List.map_nil]
        rw [List.nodup_append]
        refine ⟨hnd, List.nodup_singleton _, ?_⟩
        intro a ha hb
        simp only [List.mem_singleton] at hb
        subst hb
        exact ((pyGet_eq_none_iff data "tenant_id").mp hnone) ha
      exact pyGet_pyMerge_of_some _ _ _ _ hnd' hv'

/-- Witness for C2's amended claim: a payload-supplied
`"receipt_type"` value survives into the emitted receipt. -/
theorem emit_receipt_payload_wins_witness :
    pyGet (emit_receipt "test" [("receipt_type", Json.jstr "spoof")] "T").1
      "receipt_type" = some (Json.jstr "spoof") :=
  emit_receipt_payload_wins "test" "T" [("receipt_type", Json.jstr "spoof")]
    (by simp) "receipt_type" (Json.jstr "spoof") rfl

/-- C9: `emit_receipt` mutates its caller's payload dict in place: when
`"tenant_id"` is absent it appends exactly the default tenant entry to
the caller's dict (leaving every other entry unchanged, in place), when
present it leaves the dict exactly as it was, and after the call the
dict always contains a `"tenant_id"` entry. -/
theorem emit_receipt_mutates_data (rt now : String) (data : PyDict) :
    (pyContains data "tenant_id" = false →
      (emit_receipt rt data now).2 = data ++ [("tenant_id", Json.jstr TENANT_ID)]) ∧
    (pyContains data "tenant_id" = true →
      (emit_receipt rt data now).2 = data) ∧
    pyContains (emit_receipt rt data now).2 "tenant_id" = true := by
  refine ⟨fun h => ?_, fun h => ?_, ?_⟩
  · have hnone : pyGet data "tenant_id" = none := by
      cases hg : pyGet data "tenant_id" with
      | none => rfl
      | some w => simp [pyContains, hg] at h
    simp [emit_receipt, h, pySet_of_get_none data "tenant_id" _ hnone]
  · simp [emit_receipt, h]
  · cases hcs : pyContains data "tenant_id" with
    | true => simp [emit_receipt, hcs]
    | false =>
        have hnone : pyGet data "tenant_id" = none := by
          cases hg : pyGet data "tenant_id" with
          | none => rfl
          | some w => simp [pyContains, hg] at hcs
        simp only [emit_receipt, hcs, Bool.false_eq_true, if_false]
        rw [pyContains, pySet_of_get_none data "tenant_id" _ hnone,
          pyGet_append_of_none _ _ _ hnone]
        rfl

/-- Witness for C9: a payload without `tenant_id` gains exactly the
default tenant entry, appended after its existing keys. -/
theorem emit_receipt_mutates_data_witness :
    (emit_receipt "test" [("amount", Json.jint 5)] "T").2
      = [("amount", Json.jint 5)] ++ [("tenant_id", Json.jstr TENANT_ID)] :=
  (emit_receipt_mutates_data "test" "T" [("amount", Json.jint 5)]).1 rfl

theorem pyContains_pySet_self (d : PyDict) (k : String) (v : Json) :
    pyContains (pySet d k v) k = true := by
  simp [pyContains, pyGet_pySet_self]

theorem pyContains_pySet_ne (d : PyDict) (k' k : String) (v : Json)
    (h : k' ≠ k) : pyContains (pySet d k' v) k = pyContains d k := by
  simp [pyContains, pyGet_pySet_ne _ _ _ _ h]

theorem receiptErrors_length (i : Nat) (r : PyDict) :
    (receiptErrors i r).length
      = (requiredFields.filter (fun f => !(pyContains r f))).length := by
  simp [receiptErrors]

theorem length_flatten_sum {α : Type} (L : List (List α)) :
    L.flatten.length = (L.map List.length).sum := by
  induction L with
  | nil => rfl
  | cons x xs ih => simp [ih]

theorem validate_errors_length (receipts : List PyDict) :
    (validate_receipt_chain receipts).errors.length
      = (receipts.map (fun r =>
          (requiredFields.filter (fun f => !(pyContains r f))).length)).sum := by
  cases receipts with
  | nil => rfl
  | cons r rest =>
      show ((r :: rest).enum.map (fun p => receiptErrors p.1 p.2)).flatten.length = _
      rw [length_flatten_sum, List.map_map]
      have h1 : (r :: rest).enum.map (List.length ∘ fun p => receiptErrors p.1 p.2)
          = (r :: rest).enum.map
              ((fun s => (requiredFields.filter (fun f => !(pyContains s f))).length)
                ∘ Prod.snd) := by
        refine List.map_congr_left ?_
        intro p _
        simp [receiptErrors_length]
      rw [h1, ← List.map_map, List.enum_map_snd]

theorem validate_valid_iff (receipts : List PyDict) :
    (validate_receipt_chain receipts).valid = true ↔
      ∀ r ∈ receipts, ∀ f ∈ requiredFields, pyContains r f = true := by
  have hval : (validate_receipt_chain receipts).valid
      = (validate_receipt_chain receipts).errors.isEmpty := by
    cases receipts with
    | nil => rfl
    | cons r rest => rfl
  rw [hval, List.isEmpty_iff_length_eq_zero, validate_errors_length,
    List.sum_eq_zero_iff]
  constructor
  · intro h r hr f hf
    have := h _ (List.mem_map_of_mem _ hr)
    rw [List.length_eq_zero, List.filter_eq_nil_iff] at this
    have hb := this f hf
    simpa using hb
  · intro h x hx
    obtain ⟨r, hr, hx⟩ := List.mem_map.mp hx
    subst hx
    rw [List.length_eq_zero, List.filter_eq_nil_iff]
    intro f hf
    simp [h r hr f hf]

/-- C5: `validate_receipt_chain` is a pure field-presence check: it is
valid exactly when every receipt carries all four required fields, it
collects one error entry per missing field across the whole input with
no early abort (the error count is the total missing-field count), and
it never compares `payload_hash` against recomputed content — replacing
every receipt's `payload_hash` value by an arbitrary (e.g. wrong) value
never changes the validation verdict. -/
theorem validate_receipt_chain_spec (receipts : List PyDict) :
    ((validate_receipt_chain receipts).valid = true ↔
      ∀ r ∈ receipts, ∀ f ∈ requiredFields, pyContains r f = true) ∧
    ((validate_receipt_chain receipts).errors.length
      = (receipts.map (fun r =>
          (requiredFields.filter (fun f => !(pyContains r f))).length)).sum) ∧
    (∀ v : Json, (∀ r ∈ receipts, pyContains r "payload_hash" = true) →
      (validate_receipt_chain
        (receipts.map (fun r => pySet r "payload_hash" v))).valid
        = (validate_receipt_chain receipts).valid) := by
  refine ⟨validate_valid_iff receipts, validate_errors_length receipts, ?_⟩
  intro v hph
  rw [Bool.eq_iff_iff, validate_valid_iff, validate_valid_iff]
  constructor
  · intro h r hr f hf
    by_cases hfp : f = "payload_hash"
    · subst hfp; exact hph r hr
    · have := h _ (List.mem_map_of_mem _ hr) f hf
      rwa [pyContains_pySet_ne _ _ _ _ (fun he => hfp he.symm)] at this
  · intro h x hx f hf
    obtain ⟨r, hr, hx⟩ := List.mem_map.mp hx
    subst hx
    by_cases hfp : f = "payload_hash"
    · subst hfp; exact pyContains_pySet_self _ _ _
    · rw [pyContains_pySet_ne _ _ _ _ (fun he => hfp he.symm)]
      exact h r hr f hf

/-- Witness for C5: a structurally complete receipt whose
`payload_hash` is replaced by a forged value still validates exactly as
the original does. -/
theorem validate_receipt_chain_spec_witness :
    (validate_receipt_chain
      ([[("receipt_type", Json.jstr "test"), ("ts", Json.jstr "T"),
         ("tenant_id", Json.jstr "x"), ("payload_hash", Json.jstr "right")]].map
        (fun r => pySet r "payload_hash" (Json.jstr "forged")))).valid
      = (validate_receipt_chain
          [[("receipt_type", Json.jstr "test"), ("ts", Json.jstr "T"),
            ("tenant_id", Json.jstr "x"), ("payload_hash", Json.jstr "right")]]).valid :=
  (validate_receipt_chain_spec
    [[("receipt_type", Json.jstr "test"), ("ts", Json.jstr "T"),
      ("tenant_id", Json.jstr "x"), ("payload_hash", Json.jstr "right")]]).2.2
    (Json.jstr "forged")
    (by
      intro r hr
      rw [List.mem_singleton] at hr
      subst hr
      rfl)

/-- C7: the expected first-digit Benford frequencies of
`benford_expected(1)` — `log10(1 + 1/d)` for the digits `d = 1..9` — sum
to `1.0` within the spec's tolerance `1e-2`; the real-valued sum is in
fact exactly `1`. -/
theorem benford_expected1_sum_to_one :
    |((List.range' 1 9).map benford_expected1).sum - 1| ≤ 1 / 100 := by
  have e : ∀ d : ℕ, 0 < d →
      benford_expected1 d = Real.logb 10 ((d : ℝ) + 1) - Real.logb 10 (d : ℝ) := by
    intro d hd
    have hd0 : (d : ℝ) ≠ 0 := Nat.cast_ne_zero.mpr (Nat.pos_iff_ne_zero.mp hd)
    rw [benford_expected1, show (1 : ℝ) + 1 / (d : ℝ) = ((d : ℝ) + 1) / (d : ℝ) by
      field_simp]
    exact Real.logb_div (by positivity) hd0
  have hsum : ((List.range' 1 9).map benford_expected1).sum = 1 := by
    rw [show List.range' 1 9 = [1, 2, 3, 4, 5, 6, 7, 8, 9] from rfl]
    simp only [List.map_cons, List.map_nil, List.sum_cons, List.sum_nil]
    rw [e 1 (by norm_num), e 2 (by norm_num), e 3 (by norm_num), e 4 (by norm_num),
      e 5 (by norm_num), e 6 (by norm_num), e 7 (by norm_num), e 8 (by norm_num),
      e 9 (by norm_num)]
    norm_num
  rw [hsum]
  norm_num

/-! ### Merkle proof soundness on power-of-two ledgers

`merkle` pads an odd level by duplicating its last hash, level by level,
while `generate_merkle_proof` pads the leaf level up to the next power
of two before descending.  When the leaf count is a power of two neither
padding fires and the two trees coincide; the lemmas below prove proof
soundness in that case.  (At other sizes the trees can differ — see the
counterexample with six receipts.) -/

theorem pow2_land_pred (k : Nat) : 2 ^ k &&& (2 ^ k - 1) = 0 := by
  apply Nat.eq_of_testBit_eq
  intro i
  simp only [Nat.testBit_and, Nat.testBit_two_pow, Nat.testBit_two_pow_sub_one,
    Nat.zero_testBit]
  by_cases h : k = i <;> simp [h]

theorem padPow2Go_of_pow2 (f : Nat) (hs : List String)
    (h : hs.length &&& (hs.length - 1) = 0) : padPow2Go f hs = hs := by
  cases f <;> simp [padPow2Go, h]

theorem padOdd_of_even (hs : List String) (h : hs.length % 2 = 0) :
    padOdd hs = hs := by
  simp [padOdd, h]

theorem hashPairs_length : ∀ hs : List String,
    (hashPairs hs).length = (hs.length + 1) / 2
  | [] => by simp [hashPairs]
  | [_] => by simp [hashPairs]
  | _ :: _ :: rest => by
      have ih := hashPairs_length rest
      simp [hashPairs, ih]
      omega

theorem proofLevelGo_snd : ∀ (hs : List String) (i index : Nat),
    hs.length % 2 = 0 → (proofLevelGo hs i index).2 = hashPairs hs
  | [], _, _, _ => rfl
  | [_], _, _, h => by simp at h
  | a :: b :: rest, i, index, h => by
      have h' : rest.length % 2 = 0 := by
        simp [List.length_cons] at h
        omega
      have ih := proofLevelGo_snd rest (i + 2) index h'
      simp [proofLevelGo, hashPairs, ih]

theorem proofLevelGo_fst_none : ∀ (hs : List String) (i index : Nat),
    index / 2 < i / 2 → (proofLevelGo hs i index).1 = []
  | [], _, _, _ => rfl
  | [_], i, index, h => by
      simp [proofLevelGo, ne_of_gt h]
  | _ :: _ :: rest, i, index, h => by
      have ih := proofLevelGo_fst_none rest (i + 2) index (by omega)
      simp [proofLevelGo, ih, ne_of_gt h]

theorem fold_proofLevel : ∀ (hs : List String) (m p : Nat),
    hs.length % 2 = 0 → p < hs.length →
    ((proofLevelGo hs (2 * m) (2 * m + p)).1).foldl verifyStep (hs.getD p "")
      = (hashPairs hs).getD (p / 2) ""
  | [], _, p, _, hp => absurd hp (by simp)
  | [_], _, _, he, _ => by simp at he
  | a :: b :: rest, m, 0, he, hp => by
      have hnone := proofLevelGo_fst_none rest (2 * m + 2) (2 * m) (by omega)
      simp [proofLevelGo, hnone, Nat.mul_mod_right, hashPairs, verifyStep]
  | a :: b :: rest, m, 1, he, hp => by
      have hnone := proofLevelGo_fst_none rest (2 * m + 2) (2 * m + 1) (by omega)
      have hdiv : (2 * m) / 2 = (2 * m + 1) / 2 := by omega
      have hmod : ¬ ((2 * m + 1) % 2 = 0) := by omega
      simp [proofLevelGo, hnone, hdiv, hmod, hashPairs, verifyStep]
  | a :: b :: rest, m, p + 2, he, hp => by
      have he' : rest.length % 2 = 0 := by
        simp [List.length_cons] at he
        omega
      have hp' : p < rest.length := by
        simp [List.length_cons] at hp
        omega
      have ih := fold_proofLevel rest (m + 1) p he' hp'
      have hidx : 2 * m + (p + 2) = 2 * (m + 1) + p := by omega
      have hne : ¬ ((2 * m) / 2 = (2 * (m + 1) + p) / 2) := by omega
      have h22 : 2 * m + 2 = 2 * (m + 1) := by omega
      have hdiv : (p + 2) / 2 = p / 2 + 1 := by omega
      have hgetL : (a :: b :: rest).getD (p + 2) "" = rest.getD p "" := by
        rw [show p + 2 = (p + 1) + 1 from rfl, List.getD_cons_succ,
          List.getD_cons_succ]
      simp only [proofLevelGo, hidx, h22, hne, if_false, List.nil_append, hgetL,
        hashPairs, hdiv, List.getD_cons_succ]
      exact ih

theorem fold_proofLoop : ∀ (k : Nat) (hs : List String) (idx f : Nat),
    hs.length = 2 ^ k → idx < hs.length → hs.length ≤ f →
    (proofLoopGo f hs idx).foldl verifyStep (hs.getD idx "")
      = (merkleLoopGo f hs).headD "" := by
  intro k
  induction k with
  | zero =>
      intro hs idx f hlen hidx hf
      obtain ⟨h, rfl⟩ : ∃ h, hs = [h] := by
        cases hs with
        | nil => exact absurd hlen (by simp)
        | cons x xs =>
            cases xs with
            | nil => exact ⟨x, rfl⟩
            | cons y ys =>
                exact absurd hlen
                  (by simp only [List.length_cons, pow_zero]; omega)
      have hidx0 : idx = 0 := by simpa using hidx
      subst hidx0
      cases f with
      | zero => rfl
      | succ f' => simp [proofLoopGo, merkleLoopGo]
  | succ k ih =>
      intro hs idx f hlen hidx hf
      have hpow : 0 < 2 ^ k := Nat.pos_pow_of_pos _ (by norm_num)
      have hlen2 : hs.length = 2 * 2 ^ k := by rw [hlen, pow_succ]; ring
      obtain ⟨f', rfl⟩ : ∃ f', f = f' + 1 := by
        cases f with
        | zero => omega
        | succ f0 => exact ⟨f0, rfl⟩
      have heven : hs.length % 2 = 0 := by omega
      have hcond : 1 < hs.length := by omega
      simp only [proofLoopGo, merkleLoopGo, if_pos hcond]
      rw [padOdd_of_even hs heven, proofLevelGo_snd hs 0 idx heven,
        List.foldl_append]
      have hl := fold_proofLevel hs 0 idx heven hidx
      simp only [Nat.mul_zero, Nat.zero_add] at hl
      rw [hl]
      have hlen' : (hashPairs hs).length = 2 ^ k := by
        rw [hashPairs_length hs]
        omega
      have hidx' : idx / 2 < (hashPairs hs).length := by
        rw [hlen']
        omega
      have hf' : (hashPairs hs).length ≤ f' := by
        rw [hlen']
        omega
      exact ih (hashPairs hs) (idx / 2) f' hlen' hidx' hf'

theorem getD_map_leafHash (R : List Json) (i : Nat) (hi : i < R.length) :
    (R.map leafHash).getD i "" = leafHash (R.getD i (Json.jobj [])) := by
  induction R generalizing i with
  | nil => simp at hi
  | cons x xs ih =>
      cases i with
      | zero => rfl
      | succ n => simpa using ih n (by simpa using hi)

/-- C1 amended: for every receipt list whose length is a power of two —
the sizes at which the per-level odd-padding of `merkle` and the
pad-to-power-of-two of `generate_merkle_proof` both do nothing, so the
two tree constructions coincide — verifying `R[i]` with the generated
proof against `merkle R` succeeds for every valid index `i`.  (The
original unrestricted claim is false: see the six-receipt
counterexample.) -/
theorem merkle_proof_sound_pow2 (R : List Json) (i k : Nat)
    (hlen : R.length = 2 ^ k) (hi : i < R.length) :
    verify_merkle_proof (R.getD i (Json.jobj []))
      (generate_merkle_proof R i) (merkle R) = true := by
  have hpow : 0 < 2 ^ k := Nat.pos_pow_of_pos _ (by norm_num)
  have hempty : R.isEmpty = false := by
    cases R with
    | nil =>
        rw [List.length_nil] at hlen
        exact absurd hlen.symm (Nat.pos_iff_ne_zero.mp hpow)
    | cons a l => rfl
  have hle : ¬ (R.length ≤ i) := by omega
  have hland : (R.map leafHash).length &&& ((R.map leafHash).length - 1) = 0 := by
    rw [List.length_map, hlen]
    exact pow2_land_pred k
  unfold verify_merkle_proof generate_merkle_proof merkle
  rw [hempty]
  simp only [Bool.false_or, decide_eq_false hle, if_false, Bool.false_eq_true]
  rw [padPow2Go_of_pow2 _ _ hland, decide_eq_true_eq,
    ← getD_map_leafHash R i hi]
  exact fold_proofLoop k (R.map leafHash) i (R.map leafHash).length
    (by rw [List.length_map, hlen]) (by rw [List.length_map]; omega)
    (le_refl _)

/-- Witness for C1's amended claim: a concrete two-receipt ledger
(length `2 = 2 ^ 1`), index `0`, fully evaluated. -/
theorem merkle_proof_sound_pow2_witness :
    verify_merkle_proof
      (([Json.jobj [("id", Json.jint 0)], Json.jobj [("id", Json.jint 1)]]).getD 0
        (Json.jobj []))
      (generate_merkle_proof
        [Json.jobj [("id", Json.jint 0)], Json.jobj [("id", Json.jint 1)]] 0)
      (merkle [Json.jobj [("id", Json.jint 0)], Json.jobj [("id", Json.jint 1)]])
      = true :=
  merkle_proof_sound_pow2
    [Json.jobj [("id", Json.jint 0)], Json.jobj [("id", Json.jint 1)]] 0 1
    rfl (by norm_num)

set_option maxRecDepth 1000000 in
/-- C1 counterexample: with the six receipts `{"id": 0} .. {"id": 5}`
and the valid index `0`, verifying the receipt with the proof generated
by `generate_merkle_proof` against `merkle`'s root returns `false` — at
six leaves `merkle` pairs `H45` with its duplicate (odd-level padding)
while the proof tree pairs `H45` with `H55` (power-of-two padding), so
the two roots differ and the claimed universal soundness fails. -/
theorem merkle_proof_counterexample :
    verify_merkle_proof (Json.jobj [("id", Json.jint 0)])
      (generate_merkle_proof
        [Json.jobj [("id", Json.jint 0)], Json.jobj [("id", Json.jint 1)],
         Json.jobj [("id", Json.jint 2)], Json.jobj [("id", Json.jint 3)],
         Json.jobj [("id", Json.jint 4)], Json.jobj [("id", Json.jint 5)]] 0)
      (merkle
        [Json.jobj [("id", Json.jint 0)], Json.jobj [("id", Json.jint 1)],
         Json.jobj [("id", Json.jint 2)], Json.jobj [("id", Json.jint 3)],
         Json.jobj [("id", Json.jint 4)], Json.jobj [("id", Json.jint 5)]])
      = false := by decide

end IllinoisProof

